import Mathlib

set_option maxRecDepth 4000

/-!
Shallow embedding of the decision engine of the Beacon content-blocking
extension (`src/background.js`, v7.7).  JS strings are `String` (viewed as
`List Char` where convenient), `chrome.storage.local` is an association
list from keys to a small universe of values, timestamps are `Nat`, and
the event-loop concurrency of the in-flight coalescer is modelled by an
explicit world state with atomic segments between suspension points.
-/

/-! ### The `new URL(...)` platform parser

`background.js` relies on the WHATWG URL parser through `new URL(url)` and
reads `hostname` (lower-cased, port-less), `pathname`, and
`searchParams.get('v')`.  We model the fragment of the parser those reads
exercise: a scheme followed by `:`, special (http-family) schemes with a
required non-empty host, other schemes with either a `//`-authority or an
opaque path.  Inputs outside this fragment (relative references, missing
scheme) fail to parse, which in `normalizeUrl` means falling into the
`catch` branch. -/

def isSchemeChar (c : Char) : Bool :=
  c.isAlpha || c.isDigit || c == '+' || c == '-' || c == '.'

def schemeSplit : List Char → Option (List Char × List Char)
  | [] => none
  | c :: cs =>
    if c == ':' then some ([], cs)
    else
      match schemeSplit cs with
      | some (s, r) => some (c :: s, r)
      | none => none

def validSchemeChars : List Char → Bool
  | [] => false
  | c :: cs => c.isAlpha && cs.all isSchemeChar

def toLowerList (l : List Char) : List Char := l.map Char.toLower

def notDelim (c : Char) : Bool := !(c == '/') && !(c == '?') && !(c == '#')

/-- Host portion of an authority: drop userinfo (up to the last `@`),
strip the port (after `:`), lower-case. -/
def hostOf (authority : List Char) : List Char :=
  let afterUser := (authority.reverse.takeWhile (fun c => !(c == '@'))).reverse
  (toLowerList afterUser).takeWhile (fun c => !(c == ':'))

structure UrlParts where
  scheme : List Char
  hostname : List Char
  pathname : List Char
  query : List Char
deriving DecidableEq, Repr

def specialSchemes : List (List Char) :=
  ["http".data, "https".data, "ws".data, "wss".data, "ftp".data]

def pathAndQuery (tail : List Char) : List Char × List Char :=
  let beforeHash := tail.takeWhile (fun c => !(c == '#'))
  (beforeHash.takeWhile (fun c => !(c == '?')),
   (beforeHash.dropWhile (fun c => !(c == '?'))).drop 1)

def parseUrl (cs : List Char) : Option UrlParts :=
  match schemeSplit cs with
  | none => none
  | some (sch, rest) =>
    if validSchemeChars sch then
      let scheme := toLowerList sch
      if specialSchemes.contains scheme then
        let rest' := rest.dropWhile (fun c => c == '/')
        let authority := rest'.takeWhile notDelim
        let host := hostOf authority
        if host.isEmpty then none
        else
          let tail := rest'.dropWhile notDelim
          let pq := pathAndQuery tail
          let path := if pq.1.isEmpty then ['/'] else pq.1
          some ⟨scheme, host, path, pq.2⟩
      else
        if ['/', '/'].isPrefixOf rest then
          let rest' := rest.drop 2
          let authority := rest'.takeWhile notDelim
          let host := hostOf authority
          let tail := rest'.dropWhile notDelim
          let pq := pathAndQuery tail
          some ⟨scheme, host, pq.1, pq.2⟩
        else
          let pq := pathAndQuery rest
          some ⟨scheme, [], pq.1, pq.2⟩
    else none

def splitOnChar (sep : Char) : List Char → List (List Char)
  | [] => [[]]
  | c :: cs =>
    let r := splitOnChar sep cs
    if c == sep then [] :: r
    else
      match r with
      | h :: t => (c :: h) :: t
      | [] => [[c]]

/-- Model of `urlObj.searchParams.get('v')`: first `v=`-pair of the query. -/
def getParamV (query : List Char) : Option (List Char) :=
  let pairs := (splitOnChar '&' query).map (fun part =>
    (part.takeWhile (fun c => !(c == '=')),
     (part.dropWhile (fun c => !(c == '='))).drop 1))
  ((pairs.filter (fun p => p.1 == ['v'])).head?).map (fun p => p.2)

/-- Model of `.replace(/\/$/, '')`: remove one trailing slash. -/
def stripTrailingSlash (l : List Char) : List Char :=
  match l.reverse with
  | c :: r => if c == '/' then r.reverse else l
  | [] => l

/-- Embedding of `normalizeUrl` — `background.js` lines 197–213. -/
def normalizeUrl (url : String) : String :=
  match parseUrl url.data with
  | none => url
  | some u =>
    let hostname :=
      if ['w', 'w', 'w', '.'].isPrefixOf u.hostname then u.hostname.drop 4 else u.hostname
    if hostname == "youtube.com".data && u.pathname == "/watch".data then
      match getParamV u.query with
      | some v =>
        if v.isEmpty then String.mk (hostname ++ u.pathname)
        else String.mk (hostname ++ u.pathname ++ ('?' :: 'v' :: '=' :: v))
      | none => String.mk (hostname ++ u.pathname)
    else String.mk (stripTrailingSlash (hostname ++ u.pathname))

theorem normalizeUrl_youtube_example :
    normalizeUrl "https://www.youtube.com/watch?v=abc&ref=123" = "youtube.com/watch?v=abc" := by
  decide

theorem normalizeUrl_default_example : normalizeUrl "https://site0.example/p" = "site0.example/p" := by
  decide

theorem normalizeUrl_trailing_slash_example :
    normalizeUrl "https://en.example.org/wiki/Cat/" = "en.example.org/wiki/Cat" := by decide

theorem normalizeUrl_fallback_example : normalizeUrl "not a url" = "not a url" := by decide

theorem normalizeUrl_opaque_example : normalizeUrl "x:y:z" = "y:z" := by decide

theorem normalizeUrl_opaque_again_example : normalizeUrl "y:z" = "z" := by decide

/-! ### `chrome.storage.local` and the cache data model

The store is an association list (first binding wins, as a key-value
namespace); values range over the shapes `background.js` keeps there:
strings (auth token, email, theme), numbers (cacheVersion, throttle
timestamps), booleans (`blockingPaused`), cache entries, and the block
log. -/

structure CacheEntry where
  decision : String
  reason : Option String
  title : Option String
  activePrompt : Option String
  timestamp : Nat
  cacheVersion : Option Nat
deriving DecidableEq, Repr

structure LogEntry where
  url : String
  domain : String
  reason : String
  decision : String
  pageTitle : String
  activePrompt : Option String
  timestamp : Nat
deriving DecidableEq, Repr

inductive Val where
  | str (s : String)
  | num (n : Nat)
  | boolV (b : Bool)
  | entry (e : CacheEntry)
  | logV (l : List LogEntry)
deriving DecidableEq, Repr

abbrev Store : Type := List (String × Val)

def Store.get (st : Store) (k : String) : Option Val :=
  (List.find? (fun p => p.1 == k) st).map (fun p => p.2)

def Store.set (st : Store) (k : String) (v : Val) : Store :=
  (k, v) :: List.filter (fun p => !(p.1 == k)) st

def Store.removeKeys (st : Store) (ks : List String) : Store :=
  List.filter (fun p => !(ks.contains p.1)) st

def Store.keys (st : Store) : List String := st.map (fun p => p.1)

/-- JS truthiness of an optional stored value: `undefined`/`null`, `''`,
`0` and `false` are falsy; objects and arrays are truthy. -/
def truthyVal : Option Val → Bool
  | none => false
  | some (.str s) => !(s == "")
  | some (.num n) => !(n == 0)
  | some (.boolV b) => b
  | some (.entry _) => true
  | some (.logV _) => true

def jsTruthyOptNat : Option Nat → Bool
  | none => false
  | some n => !(n == 0)

def BLOCK_LOG_KEY : String := "localBlockLog"

/-- Local `cacheVersion` as read by the code (`Option Nat`; absent keys and
non-numeric values read as unset). -/
def getVersion (st : Store) : Option Nat :=
  match Store.get st "cacheVersion" with
  | some (.num n) => some n
  | _ => none

/-- Embedding of `getCache` — lines 215–224 (storage lookup under the normalized key). -/
def getCache (url : String) (st : Store) : Option CacheEntry :=
  match Store.get st (normalizeUrl url) with
  | some (.entry e) => some e
  | _ => none

structure CachePayload where
  decision : String
  title : Option String
  reason : Option String
  activePrompt : Option String
deriving DecidableEq, Repr

/-- Embedding of `setCache` — lines 226–235: stamps `Date.now()` and
`cacheVersion || null` onto the payload and writes it under the
normalized key. -/
def setCache (url : String) (d : CachePayload) (now : Nat) (st : Store) : Store :=
  let key := normalizeUrl url
  let cv : Option Nat :=
    match getVersion st with
    | some v => if v == 0 then none else some v
    | none => none
  Store.set st key (.entry ⟨d.decision, d.reason, d.title, d.activePrompt, now, cv⟩)

/-- Cache validity — lines 821–822:
`cached && (!currentVersion || cached.cacheVersion === currentVersion)`. -/
def cacheValid (cached : Option CacheEntry) (currentVersion : Option Nat) : Bool :=
  match cached with
  | none => false
  | some e => !jsTruthyOptNat currentVersion || e.cacheVersion == currentVersion

def MAX_CACHE_SIZE : Nat := 200

def CLEANUP_RESERVED : List String :=
  ["authToken", "userEmail", "cacheVersion", "theme", BLOCK_LOG_KEY]

def strStartsWith (s pre : String) : Bool := pre.data.isPrefixOf s.data

def Val.timestampOf : Val → Nat
  | .entry e => e.timestamp
  | _ => 0

def insertByTs (x : String × Nat) : List (String × Nat) → List (String × Nat)
  | [] => [x]
  | y :: ys => if x.2 < y.2 then x :: y :: ys else y :: insertByTs x ys

/-- Stable ascending sort by timestamp (`(a, b) => a.timestamp - b.timestamp`). -/
def sortByTs (l : List (String × Nat)) : List (String × Nat) := l.foldr insertByTs []

/-- Embedding of `cleanupCache` — lines 238–257.  Candidate cache entries are the stored
pairs whose key starts with `'http'` and is not reserved (the code's
comment claims normalized URLs start with `http`); if more than
`MAX_CACHE_SIZE` remain, the oldest excess (by ascending timestamp) is
removed. -/
def cleanupCache (st : Store) : Store :=
  let cacheEntries :=
    (List.filter (fun (p : String × Val) =>
        strStartsWith p.1 "http" && !(CLEANUP_RESERVED.contains p.1)) st).map
      (fun p => (p.1, p.2.timestampOf))
  if cacheEntries.length > MAX_CACHE_SIZE then
    let sorted := sortByTs cacheEntries
    let toRemove := sorted.take (cacheEntries.length - MAX_CACHE_SIZE)
    Store.removeKeys st (toRemove.map (fun p => p.1))
  else st

/-! ### Local activity log — lines 306–433 -/

def MAX_BLOCK_LOG_SIZE : Nat := 1000

structure BlockData where
  decision : Option String
  url : String
  domain : String
  reason : String
  pageTitle : Option String
  activePrompt : Option String
deriving DecidableEq, Repr

/-- JS `s || dflt` on a possibly-absent string. -/
def jsOrStr (s : Option String) (dflt : String) : String :=
  match s with
  | none => dflt
  | some v => if v == "" then dflt else v

/-- JS `s || null` on a possibly-absent string. -/
def jsOrNull (s : Option String) : Option String :=
  match s with
  | none => none
  | some v => if v == "" then none else some v

/-- Embedding of `addToLocalBlockLog` — lines 330–381.  `logAllow` is the stored
`logAllowDecisions` setting read inside the function; `now` is
`Date.now()`. -/
def addToLocalBlockLog (logAllow : Bool) (bd : BlockData) (now : Nat)
    (blockLog : List LogEntry) : List LogEntry :=
  let decision := jsOrStr bd.decision "BLOCK"
  if decision == "ALLOW" && !logAllow then blockLog
  else
    let dedupHit :=
      match blockLog with
      | last :: _ =>
        (last.url == bd.url) && (last.reason == bd.reason) &&
          (jsOrStr (some last.decision) "BLOCK" == decision) &&
          (now - last.timestamp < 10000)
      | [] => false
    if dedupHit then blockLog
    else
      let blockLog' : List LogEntry :=
        ⟨bd.url, bd.domain, bd.reason, decision, jsOrStr bd.pageTitle "",
         jsOrNull bd.activePrompt, now⟩ :: blockLog
      if blockLog'.length > MAX_BLOCK_LOG_SIZE then blockLog'.take MAX_BLOCK_LOG_SIZE
      else blockLog'

/-- Embedding of `deleteSingleLog` — lines 423–433. -/
def deleteSingleLog (ts : Nat) (blockLog : List LogEntry) : List LogEntry :=
  blockLog.filter (fun e => !(e.timestamp == ts))

inductive LogOp where
  | add (logAllow : Bool) (bd : BlockData) (now : Nat)
  | del (ts : Nat)
  | clear
deriving DecidableEq, Repr

def applyLogOp (blockLog : List LogEntry) : LogOp → List LogEntry
  | .add la bd now => addToLocalBlockLog la bd now blockLog
  | .del ts => deleteSingleLog ts blockLog
  | .clear => []

def applyLogOps (ops : List LogOp) (blockLog : List LogEntry) : List LogEntry :=
  ops.foldl applyLogOp blockLog

/-- The (url, reason, decision) triple of two entries coincides, with the
same `|| 'BLOCK'` defaulting the dedup check applies. -/
def sameTriple (a b : LogEntry) : Bool :=
  (a.url == b.url) && (a.reason == b.reason) &&
    (jsOrStr (some a.decision) "BLOCK" == jsOrStr (some b.decision) "BLOCK")

/-- Adjacent pair `a` (newer) over `b` (older) violates the dedup window. -/
def dedupViolation (a b : LogEntry) : Bool :=
  sameTriple a b && (a.timestamp - b.timestamp < 10000)

def noAdjDup : List LogEntry → Bool
  | a :: b :: rest => !dedupViolation a b && noAdjDup (b :: rest)
  | _ => true

def tsBounded (bound : Nat) (l : List LogEntry) : Bool :=
  l.all (fun e => e.timestamp ≤ bound)

/-- Newest-first: every later entry is no newer than the head, recursively. -/
def sortedDescTs : List LogEntry → Bool
  | [] => true
  | a :: rest => tsBounded a.timestamp rest && sortedDescTs rest

/-- Wall-clock times of successive `add` operations never decrease. -/
def opsMonotoneFromB : Nat → List LogOp → Bool
  | _, [] => true
  | t, .add _ _ now :: rest => (t ≤ now) && opsMonotoneFromB now rest
  | t, .del _ :: rest => opsMonotoneFromB t rest
  | t, .clear :: rest => opsMonotoneFromB t rest

def noDel : List LogOp → Bool
  | [] => true
  | .del _ :: _ => false
  | _ :: rest => noDel rest

/-! ### Per-tab state and the `handlePageStateUpdate` pipeline — lines 702–860 -/

structure TabSt where
  lastProcessedUrl : Option String
  lastProcessedTitle : Option String
  blockedUrl : Option String
  hasBeenChecked : Bool
deriving DecidableEq, Repr

def TabSt.fresh : TabSt := ⟨none, none, none, false⟩

/-- Embedding of `SAFE_LIST` — lines 186–194 (the extension's own id,
`chrome.runtime.id`, is an opaque runtime constant and is omitted). -/
def SAFE_LIST : List String :=
  ["chase.com", "bankofamerica.com", "wellsfargo.com", "americanexpress.com",
   "google.com", "gmail.com", "docs.google.com",
   "github.com", "stackoverflow.com",
   "localhost", "127.0.0.1", "0.0.0.0", "ai-dashboard",
   "vercel.app", "netlify.app",
   "beaconblocker.com"]

def hostIsSafe (hostname : List Char) : Bool :=
  SAFE_LIST.any (fun safe =>
    hostname == safe.data || (('.' :: safe.data).isSuffixOf hostname))

def containsList (pat : List Char) : List Char → Bool
  | [] => pat.isEmpty
  | c :: rest => pat.isPrefixOf (c :: rest) || containsList pat rest

def PROCESSING_COOLDOWN_MS : Nat := 3000

def cooldownFind (m : List (String × Nat)) (k : String) : Option Nat :=
  (m.find? (fun p => p.1 == k)).map (fun p => p.2)

def cooldownSet (m : List (String × Nat)) (k : String) (t : Nat) : List (String × Nat) :=
  (k, t) :: m.filter (fun p => !(p.1 == k))

/-- In-function sweep of `recentlyProcessed` — lines 796–803: once the map
holds more than 100 keys, entries older than ten cooldown windows go. -/
def cooldownSweep (m : List (String × Nat)) (now : Nat) : List (String × Nat) :=
  if m.length > 100 then
    m.filter (fun p => !(now - p.2 > PROCESSING_COOLDOWN_MS * 10))
  else m

inductive PsuResult where
  | skipPaused
  | skipParse
  | skipSafe
  | skipBrowser
  | skipYtNav
  | skipTitle
  | skipDedup
  | skipCooldown
  | cacheBlock
  | cacheBlockSuppressed
  | cacheAllowHit
  | remote
deriving DecidableEq, Repr

structure PsuOut where
  result : PsuResult
  tabSt : Option TabSt
  cooldownMap : List (String × Nat)
deriving DecidableEq, Repr

/-- Cache-consultation step of the pipeline — lines 818–849: on a valid
entry act on the cached decision (with per-tab suppression of a repeated
block of the same URL); otherwise fall through to `handlePageCheck`. -/
def cacheStage (url : String) (tabSt : TabSt) (cached : Option CacheEntry)
    (currentVersion : Option Nat) : PsuResult × TabSt :=
  if cacheValid cached currentVersion then
    match cached with
    | some e =>
      if e.decision == "BLOCK" then
        if tabSt.blockedUrl == some url then (.cacheBlockSuppressed, tabSt)
        else (.cacheBlock, { tabSt with blockedUrl := some url })
      else (.cacheAllowHit, tabSt)
    | none => (.cacheAllowHit, tabSt)
  else (.remote, tabSt)

structure PsuIn where
  paused : Bool
  url : String
  title : String
  tabSt : Option TabSt
  cooldownMap : List (String × Nat)
  now : Nat
  cached : Option CacheEntry
  currentVersion : Option Nat
deriving Repr

/-- Embedding of the `handlePageStateUpdate` body (inside the tab lock) — lines 717–851.
`tabSt` is `tabState[tabId]` before the call, `cooldownMap` is
`recentlyProcessed`, `cached`/`currentVersion` are what the two storage
reads at lines 818–819 return. -/
def psuProcess (i : PsuIn) : PsuOut :=
  if i.paused then ⟨.skipPaused, i.tabSt, i.cooldownMap⟩
  else
    match parseUrl i.url.data with
    | none => ⟨.skipParse, i.tabSt, i.cooldownMap⟩
    | some u =>
      if hostIsSafe u.hostname then ⟨.skipSafe, i.tabSt, i.cooldownMap⟩
      else if strStartsWith i.url "chrome://" || strStartsWith i.url "about:" ||
          strStartsWith i.url "edge://" then ⟨.skipBrowser, i.tabSt, i.cooldownMap⟩
      else if containsList "youtube.com".data u.hostname &&
          !(u.pathname == "/watch".data || "/shorts/".data.isPrefixOf u.pathname) then
        ⟨.skipYtNav, i.tabSt, i.cooldownMap⟩
      else
        let st0 := i.tabSt.getD TabSt.fresh
        if i.title == "" || i.title == "YouTube" then ⟨.skipTitle, some st0, i.cooldownMap⟩
        else if (st0.lastProcessedUrl == some i.url) &&
            (st0.lastProcessedTitle == some i.title) then
          ⟨.skipDedup, some st0, i.cooldownMap⟩
        else if !(st0.lastProcessedUrl == some i.url) &&
            (st0.lastProcessedTitle == some i.title) then
          ⟨.skipDedup, some st0, i.cooldownMap⟩
        else
          let st1 := { st0 with lastProcessedUrl := some i.url,
                                lastProcessedTitle := some i.title }
          let key := normalizeUrl i.url
          let lastT := cooldownFind i.cooldownMap key
          if (match lastT with
              | some t => !(t == 0) && (i.now - t < PROCESSING_COOLDOWN_MS)
              | none => false) then
            ⟨.skipCooldown, some st1, i.cooldownMap⟩
          else
            let m := cooldownSweep (cooldownSet i.cooldownMap key i.now) i.now
            let rs := cacheStage i.url st1 i.cached i.currentVersion
            ⟨rs.1, some rs.2, m⟩

/-! ### Background in-memory state and `handleClearLocalCache` — lines 862–909 -/

structure BgState where
  store : Store
  tabState : List (Nat × TabSt)
  recentlyProcessed : List (String × Nat)

def RESERVED_KEYS : List String :=
  ["authToken", "userEmail", "theme", BLOCK_LOG_KEY, "cacheVersion", "blockingPaused"]

def snapLook (snap : List (String × Option Val)) (k : String) : Option Val :=
  (snap.find? (fun p => p.1 == k)).bind (fun p => p.2)

def restoreIfMissing (diskState postClear : List (String × Option Val))
    (k : String) (st : Store) : Store :=
  if truthyVal (snapLook diskState k) && !truthyVal (snapLook postClear k) then
    match snapLook diskState k with
    | some v => Store.set st k v
    | none => st
  else st

/-- Embedding of `handleClearLocalCache` — lines 862–909: snapshot the reserved keys,
remove every other key, restore any reserved key that went missing, and
reset the in-memory per-tab dedup state and cooldown map.  (The code's
recovery step skips `blockingPaused`, which the removal never touches.) -/
def handleClearLocalCache (s : BgState) : BgState :=
  let diskState := RESERVED_KEYS.map (fun k => (k, Store.get s.store k))
  let keysToRemove := (Store.keys s.store).filter (fun k => !(RESERVED_KEYS.contains k))
  let store1 := Store.removeKeys s.store keysToRemove
  let postClear := RESERVED_KEYS.map (fun k => (k, Store.get store1 k))
  let store2 := restoreIfMissing diskState postClear "theme" store1
  let store3 := restoreIfMissing diskState postClear "userEmail" store2
  let store4 := restoreIfMissing diskState postClear "authToken" store3
  let store5 := restoreIfMissing diskState postClear BLOCK_LOG_KEY store4
  let store6 := restoreIfMissing diskState postClear "cacheVersion" store5
  { store := store6,
    tabState := s.tabState.map (fun p => (p.1, TabSt.fresh)),
    recentlyProcessed := [] }

/-! ### Time-sensitive decisions and the response-processing tail of
`handlePageCheck` — lines 1261–1295 -/

structure RespData where
  decision : String
  reason : Option String
  activePrompt : Option String
  cacheVersion : Option Nat
deriving DecidableEq, Repr

def isWs (c : Char) : Bool := c == ' ' || c == '\t' || c == '\n' || c == '\r'

def skipWs (l : List Char) : List Char := l.dropWhile isWs

def unitFollows (l : List Char) : Bool :=
  "min".data.isPrefixOf l || "sec".data.isPrefixOf l || "hour".data.isPrefixOf l

/-- Model of `/\d+\s*(min|sec|hour)/i` on the lower-cased reason. -/
def reDigitUnit : List Char → Bool
  | [] => false
  | c :: rest => (c.isDigit && unitFollows (skipWs rest)) || reDigitUnit rest

def ampmFollows (l : List Char) : Bool :=
  "am".data.isPrefixOf l || "pm".data.isPrefixOf l

/-- Model of `/\d{1,2}:\d{2}\s*(am|pm)/i` on the lower-cased reason. -/
def reClockAmPm : List Char → Bool
  | [] => false
  | c :: rest =>
    (c.isDigit &&
      (match rest with
       | ':' :: d1 :: d2 :: r => d1.isDigit && d2.isDigit && ampmFollows (skipWs r)
       | _ => false)) || reClockAmPm rest

/-- Model of `/\d{1,2}\s*(am|pm)/i` on the lower-cased reason. -/
def reDigitAmPm : List Char → Bool
  | [] => false
  | c :: rest => (c.isDigit && ampmFollows (skipWs rest)) || reDigitAmPm rest

def timePhrases : List String :=
  ["left)", "until", "till", "through", "before", "after", "starting",
   "noon", "midnight", "timer", "expired", "clock"]

/-- The time-sensitivity test — lines 1272–1289. -/
def isTimeSensitive (reason : Option String) : Bool :=
  match reason with
  | none => false
  | some r =>
    if r == "" then false
    else
      let low := toLowerList r.data
      reDigitUnit low || reClockAmPm low || reDigitAmPm low ||
        timePhrases.any (fun p => containsList p.data low)

/-- Cache-version invalidation check — lines 1261–1268: a truthy response
version that is newer than a falsy-or-smaller local version clears the
whole local cache and records the new version. -/
def applyVersionCheck (respVersion : Option Nat) (s : BgState) : BgState :=
  match respVersion with
  | none => s
  | some v =>
    if v == 0 then s
    else
      let localVersion := getVersion s.store
      if !jsTruthyOptNat localVersion ||
          (match localVersion with | some lv => decide (v > lv) | none => false) then
        let s' := handleClearLocalCache s
        { s' with store := Store.set s'.store "cacheVersion" (.num v) }
      else s

/-- Conditional cache write — lines 1270–1295. -/
def cacheWriteStep (data : RespData) (targetUrl pageTitle : String) (now : Nat)
    (st : Store) : Store :=
  if isTimeSensitive data.reason then st
  else
    setCache targetUrl
      ⟨data.decision, some pageTitle, data.reason, jsOrNull data.activePrompt⟩ now st

/-- Tail of the successful-response path of `handlePageCheck`:
version check then conditional cache write. -/
def processSuccess (data : RespData) (targetUrl pageTitle : String) (now : Nat)
    (s : BgState) : BgState :=
  let s' := applyVersionCheck data.cacheVersion s
  { s' with store := cacheWriteStep data targetUrl pageTitle now s'.store }

/-! ### `fetchWithRetry` and the classifier-response dispatch — lines
126–178 and 1230–1257 -/

structure HttpResponse where
  status : Nat
  body : Option RespData
deriving DecidableEq, Repr

/-- One attempt of `fetchWithTimeout`: either an HTTP response (any
status) or a thrown network/timeout error. -/
inductive AttemptResult where
  | resp (r : HttpResponse)
  | netErr
deriving DecidableEq, Repr

/-- Retry loop of `fetchWithRetry` (lines 158–178), `fuel` many attempts
remaining, returning the outcome together with the number of attempts
made.  A response returns immediately whatever its status; only thrown
errors are retried, with the last error rethrown once attempts are
exhausted. -/
def fetchRetryAux (attempts : Nat → AttemptResult) (idx : Nat) :
    Nat → Except Unit HttpResponse × Nat
  | 0 => (.error (), 0)
  | fuel + 1 =>
    match attempts idx with
    | .resp r => (.ok r, 1)
    | .netErr =>
      if fuel == 0 then (.error (), 1)
      else
        let rec' := fetchRetryAux attempts (idx + 1) fuel
        (rec'.1, rec'.2 + 1)

def API_MAX_RETRIES : Nat := 2

def fetchWithRetry (attempts : Nat → AttemptResult) (maxRetries : Nat) :
    Except Unit HttpResponse × Nat :=
  fetchRetryAux attempts 0 (maxRetries + 1)

/-- State touched by one `handlePageCheck` request (lines 1204–1337)
beyond the storage itself. -/
structure ApiState where
  bg : BgState
  authToken : Option String
  logAllow : Bool
  blockedTab : Bool
  openedDashboard : Bool
  openedLogin : Bool

def getLogList (st : Store) : List LogEntry :=
  match Store.get st BLOCK_LOG_KEY with
  | some (.logV l) => l
  | _ => []

def putLogList (st : Store) (l : List LogEntry) : Store :=
  Store.set st BLOCK_LOG_KEY (.logV l)

def hostnameNoWww (url : String) : String :=
  match parseUrl url.data with
  | some u =>
    if ['w', 'w', 'w', '.'].isPrefixOf u.hostname then String.mk (u.hostname.drop 4)
    else String.mk u.hostname
  | none => ""

/-- Response dispatch inside the request promise — lines 1237–1296:
401/403 clear the credential and resolve `null`; 402 resolves `null`
after a throttled dashboard prompt; other non-2xx statuses throw; a 2xx
runs the version check and the conditional cache write and resolves the
decision payload. -/
def dispatchResponse (r : HttpResponse) (targetUrl pageTitle : String) (now : Nat)
    (s : ApiState) : ApiState × Except Unit (Option RespData) :=
  if r.status == 401 || r.status == 403 then
    ({ s with authToken := none,
              bg := { s.bg with store := Store.removeKeys s.bg.store ["authToken"] } },
     .ok none)
  else if r.status == 402 then
    let lastPrompt :=
      match Store.get s.bg.store "lastSubscriptionPrompt" with
      | some (.num t) => some t
      | _ => none
    if !jsTruthyOptNat lastPrompt ||
        (match lastPrompt with | some t => decide (now - t > 10 * 60 * 1000) | none => true) then
      ({ s with openedDashboard := true,
                bg := { s.bg with
                        store := Store.set s.bg.store "lastSubscriptionPrompt" (.num now) } },
       .ok none)
    else (s, .ok none)
  else if !(200 ≤ r.status && r.status ≤ 299) then (s, .error ())
  else
    match r.body with
    | some data =>
      ({ s with bg := processSuccess data targetUrl pageTitle now s.bg }, .ok (some data))
    | none => (s, .error ())

/-- Embedding of the `await requestPromise` continuation — lines 1306–1337: a resolved
BLOCK logs locally and blocks the tab, a resolved ALLOW logs if enabled,
`null` does nothing. -/
def afterRequest (res : Option RespData) (targetUrl pageTitle : String) (now : Nat)
    (s : ApiState) : ApiState :=
  match res with
  | some data =>
    if data.decision == "BLOCK" then
      let bd : BlockData :=
        ⟨some "BLOCK", targetUrl, hostnameNoWww targetUrl,
         jsOrStr data.reason "Blocked by Beacon", some pageTitle,
         jsOrNull data.activePrompt⟩
      let log' := addToLocalBlockLog s.logAllow bd now (getLogList s.bg.store)
      { s with bg := { s.bg with store := putLogList s.bg.store log' },
               blockedTab := true }
    else if data.decision == "ALLOW" then
      let bd : BlockData :=
        ⟨some "ALLOW", targetUrl, hostnameNoWww targetUrl,
         jsOrStr data.reason "Allowed", some pageTitle,
         jsOrNull data.activePrompt⟩
      let log' := addToLocalBlockLog s.logAllow bd now (getLogList s.bg.store)
      { s with bg := { s.bg with store := putLogList s.bg.store log' } }
    else s
  | none => s

/-- One full `handlePageCheck` network round (no concurrent duplicate in
flight): retry loop, response dispatch, then the `await` continuation.
Returns the final state and the number of HTTP attempts made. -/
def runPageCheckOnce (attempts : Nat → AttemptResult) (targetUrl pageTitle : String)
    (now : Nat) (s : ApiState) : ApiState × Nat :=
  match fetchWithRetry attempts API_MAX_RETRIES with
  | (.error _, n) => (s, n)
  | (.ok r, n) =>
    match dispatchResponse r targetUrl pageTitle now s with
    | (s', .error _) => (s', n)
    | (s', .ok res) => (afterRequest res targetUrl pageTitle now s', n)

/-! ### In-flight coalescing (`pendingRequests`) — lines 1189–1201 and
1303–1337

The service worker is single-threaded: between two `await`s a caller runs
atomically.  In `handlePageCheck` the map check (line 1191), the start of
the request body (line 1204, which runs synchronously up to its first
`await`), and the registration (line 1304) all happen with no intervening
suspension point, so "check, invoke factory, register" is one atomic
segment.  The world tracks the registration for one normalized key,
how many classifier calls were started, and a fresh id supply. -/

inductive Decision where
  | ALLOW
  | BLOCK
deriving DecidableEq, Repr

structure CoWorld where
  pending : Option Nat
  started : Nat
  nextId : Nat
deriving DecidableEq, Repr

inductive GuardOutcome where
  | awaitExisting (pid : Nat)
  | awaitOwn (pid : Nat)
deriving DecidableEq, Repr

/-- Atomic arrival segment of a caller: either find a registered promise
and subscribe to it, or start the classifier call and register its
promise. -/
def guardStep (w : CoWorld) : GuardOutcome × CoWorld :=
  match w.pending with
  | some pid => (.awaitExisting pid, w)
  | none =>
    (.awaitOwn w.nextId,
     { pending := some w.nextId, started := w.started + 1, nextId := w.nextId + 1 })

inductive FetchOutcome where
  | resolved (d : Decision)
  | rejected
deriving DecidableEq, Repr

structure CallerResult where
  decision : Option Decision
  blocked : Bool
  retried : Bool
deriving DecidableEq, Repr

/-- Continuation of the caller that owns the request — lines 1306–1337:
on resolution act on the decision; the `finally` always deletes the
registration (the `delete` is by key, unconditionally). -/
def ownCont (o : FetchOutcome) (w : CoWorld) : CoWorld × CallerResult :=
  match o with
  | .resolved d =>
    ({ w with pending := none }, ⟨some d, d == .BLOCK, false⟩)
  | .rejected =>
    ({ w with pending := none }, ⟨none, false, false⟩)

/-- Continuation of a caller that awaited an existing promise — lines
1192–1200: on resolution act on the shared decision and return; on
rejection fall through the `catch` and start a fresh request (a second
classifier call), registering its promise. -/
def existingCont (o : FetchOutcome) (w : CoWorld) : CoWorld × CallerResult :=
  match o with
  | .resolved d => (w, ⟨some d, d == .BLOCK, false⟩)
  | .rejected =>
    ({ pending := some w.nextId, started := w.started + 1, nextId := w.nextId + 1 },
     ⟨none, false, true⟩)

def contFor (g : GuardOutcome) (o : FetchOutcome) (w : CoWorld) : CoWorld × CallerResult :=
  match g with
  | .awaitOwn _ => ownCont o w
  | .awaitExisting _ => existingCont o w

structure CoTrace where
  world : CoWorld
  guard2 : GuardOutcome
  pendingWhileInFlight : Option Nat
  startedWhileInFlight : Nat
  r1 : CallerResult
  r2 : CallerResult
deriving DecidableEq, Repr

/-- Two same-key callers, the second arriving while the first caller's
request is still pending; the underlying promise then settles with `o`
and the two continuations run in either microtask order
(`c1First`). -/
def coalesceTrace (c1First : Bool) (o : FetchOutcome) : CoTrace :=
  let w0 : CoWorld := ⟨none, 0, 0⟩
  let g1w := guardStep w0
  let g2w := guardStep g1w.2
  let w2 := g2w.2
  if c1First then
    let s1 := contFor g1w.1 o w2
    let s2 := contFor g2w.1 o s1.1
    ⟨s2.1, g2w.1, w2.pending, w2.started, s1.2, s2.2⟩
  else
    let s2 := contFor g2w.1 o w2
    let s1 := contFor g1w.1 o s2.1
    ⟨s1.1, g2w.1, w2.pending, w2.started, s1.2, s2.2⟩

/-! ### Store lemmas -/

theorem find_filter_keep {α : Type} (pr q : α → Bool) (l : List α)
    (h : ∀ x, pr x = true → q x = true) :
    List.find? pr (List.filter q l) = List.find? pr l := by
  induction l with
  | nil => rfl
  | cons x rest ih =>
    by_cases hq : q x = true
    · rw [List.filter_cons_of_pos hq]
      by_cases hp : pr x = true
      · rw [List.find?_cons_of_pos _ hp, List.find?_cons_of_pos _ hp]
      · rw [List.find?_cons_of_neg _ (by simpa using hp),
          List.find?_cons_of_neg _ (by simpa using hp)]
        exact ih
    · rw [List.filter_cons_of_neg (by simpa using hq)]
      have hp : pr x = false := by
        by_cases hpx : pr x = true
        · exact absurd (h x hpx) hq
        · simpa using hpx
      rw [List.find?_cons_of_neg _ (by simp [hp])]
      exact ih

theorem find_filter_drop {α : Type} (pr q : α → Bool) (l : List α)
    (h : ∀ x, pr x = true → q x = false) :
    List.find? pr (List.filter q l) = none := by
  induction l with
  | nil => rfl
  | cons x rest ih =>
    by_cases hq : q x = true
    · rw [List.filter_cons_of_pos hq]
      have hp : pr x = false := by
        by_cases hpx : pr x = true
        · rw [h x hpx] at hq; exact absurd hq (by simp)
        · simpa using hpx
      rw [List.find?_cons_of_neg _ (by simp [hp])]
      exact ih
    · rw [List.filter_cons_of_neg (by simpa using hq)]
      exact ih

theorem store_get_set_self (st : Store) (k : String) (v : Val) :
    Store.get (Store.set st k v) k = some v := by
  simp [Store.get, Store.set]

theorem store_get_set_ne (st : Store) (k k' : String) (v : Val) (h : k ≠ k') :
    Store.get (Store.set st k v) k' = Store.get st k' := by
  have hk : (k == k') = false := by simpa using h
  simp only [Store.get, Store.set]
  rw [List.find?_cons_of_neg _ (by simp [hk])]
  rw [find_filter_keep]
  intro x hx
  have hx' : x.1 = k' := by simpa using hx
  have : x.1 ≠ k := by rw [hx']; exact fun e => h e.symm
  simpa using this

theorem store_get_removeKeys (st : Store) (ks : List String) (k : String) :
    Store.get (Store.removeKeys st ks) k =
      if ks.contains k then none else Store.get st k := by
  by_cases hc : ks.contains k = true
  · rw [if_pos hc]
    simp only [Store.get, Store.removeKeys]
    rw [find_filter_drop]
    · rfl
    · intro x hx
      have hx' : x.1 = k := by simpa using hx
      rw [hx', hc]
      rfl
  · rw [if_neg (by simpa using hc)]
    simp only [Store.get, Store.removeKeys]
    rw [find_filter_keep]
    intro x hx
    have hx' : x.1 = k := by simpa using hx
    have hc' : ks.contains k = false := by simpa using hc
    rw [hx', hc']
    rfl

theorem store_get_none_of_not_key (st : Store) (k : String)
    (h : ¬ k ∈ Store.keys st) : Store.get st k = none := by
  induction st with
  | nil => rfl
  | cons p rest ih =>
    simp only [Store.keys, List.map_cons, List.mem_cons] at h
    push_neg at h
    have hk : (p.1 == k) = false := by
      simpa using fun e => h.1 e.symm
    simp only [Store.get]
    rw [List.find?_cons_of_neg _ (by simp [hk])]
    exact ih (by simpa [Store.keys] using h.2)

theorem contains_filter_false (p : String → Bool) (l : List String) (k : String)
    (hp : p k = false) : (l.filter p).contains k = false := by
  induction l with
  | nil => rfl
  | cons x rest ih =>
    by_cases hq : p x = true
    · rw [List.filter_cons_of_pos hq]
      have hne : (k == x) = false := by
        have : k ≠ x := fun e => by rw [e, hq] at hp; cases hp
        simpa using this
      simpa [List.contains, List.elem, hne] using ih
    · rw [List.filter_cons_of_neg (by simpa using hq)]
      exact ih

theorem contains_filter_of_mem (p : String → Bool) (l : List String) (k : String)
    (hm : k ∈ l) (hp : p k = true) : (l.filter p).contains k = true := by
  have : k ∈ l.filter p := List.mem_filter.mpr ⟨hm, hp⟩
  exact List.elem_iff.mpr this

theorem snapLook_map (ks : List String) (f : String → Option Val) (k : String)
    (h : k ∈ ks) : snapLook (ks.map (fun k => (k, f k))) k = f k := by
  induction ks with
  | nil => cases h
  | cons x rest ih =>
    by_cases hx : x = k
    · subst hx
      simp [snapLook]
    · have hx' : (x == k) = false := by simpa using hx
      have hm : k ∈ rest := by
        cases List.mem_cons.mp h with
        | inl e => exact absurd e.symm hx
        | inr m => exact m
      simpa [snapLook, List.find?, hx'] using ih hm

theorem clear_store1_get (s : BgState) (k : String) :
    Store.get
        (Store.removeKeys s.store
          ((Store.keys s.store).filter (fun k => !(RESERVED_KEYS.contains k)))) k =
      if RESERVED_KEYS.contains k then Store.get s.store k else none := by
  rw [store_get_removeKeys]
  by_cases hr : RESERVED_KEYS.contains k = true
  · have hf : ((Store.keys s.store).filter
        (fun k => !(RESERVED_KEYS.contains k))).contains k = false :=
      contains_filter_false _ _ _
        (by show (!(RESERVED_KEYS.contains k)) = false; rw [hr]; rfl)
    rw [hf, hr]
    simp
  · have hr' : RESERVED_KEYS.contains k = false := by simpa using hr
    by_cases hmem : k ∈ Store.keys s.store
    · have hf := contains_filter_of_mem
        (fun k => !(RESERVED_KEYS.contains k)) _ _ hmem
        (by show (!(RESERVED_KEYS.contains k)) = true; rw [hr']; rfl)
      rw [hf, hr']
      simp
    · have hf : ((Store.keys s.store).filter
          (fun k => !(RESERVED_KEYS.contains k))).contains k = false := by
        by_cases hcon : ((Store.keys s.store).filter
            (fun k => !(RESERVED_KEYS.contains k))).contains k = true
        · have hm : k ∈ (Store.keys s.store).filter
              (fun k => !(RESERVED_KEYS.contains k)) := List.elem_iff.mp hcon
          exact absurd ((List.mem_filter.mp hm).1) hmem
        · simpa using hcon
      rw [hf, hr']
      simpa using store_get_none_of_not_key s.store k hmem

theorem restoreIfMissing_id (s : BgState) (store1 : Store) (k0 : String)
    (hmem : k0 ∈ RESERVED_KEYS)
    (heq : Store.get store1 k0 = Store.get s.store k0) :
    restoreIfMissing (RESERVED_KEYS.map (fun k => (k, Store.get s.store k)))
      (RESERVED_KEYS.map (fun k => (k, Store.get store1 k))) k0 store1 = store1 := by
  unfold restoreIfMissing
  rw [snapLook_map _ _ _ hmem, snapLook_map _ _ _ hmem, heq]
  simp

/-- Lemma: `handleClearLocalCache` leaves exactly the reserved keys in the store,
with their old values. -/
theorem clearCache_store_get (s : BgState) (k : String) :
    Store.get (handleClearLocalCache s).store k =
      if RESERVED_KEYS.contains k then Store.get s.store k else none := by
  show Store.get
      (restoreIfMissing _ _ "cacheVersion"
        (restoreIfMissing _ _ BLOCK_LOG_KEY
          (restoreIfMissing _ _ "authToken"
            (restoreIfMissing _ _ "userEmail"
              (restoreIfMissing _ _ "theme" _))))) k = _
  rw [restoreIfMissing_id s _ "theme" (by decide) (clear_store1_get s "theme"),
    restoreIfMissing_id s _ "userEmail" (by decide) (clear_store1_get s "userEmail"),
    restoreIfMissing_id s _ "authToken" (by decide) (clear_store1_get s "authToken"),
    restoreIfMissing_id s _ BLOCK_LOG_KEY (by decide) (clear_store1_get s BLOCK_LOG_KEY),
    restoreIfMissing_id s _ "cacheVersion" (by decide) (clear_store1_get s "cacheVersion")]
  exact clear_store1_get s k

/-! ### Claim C10 -/

/-- C10: the explicit user cache reset (`handleClearLocalCache`) leaves
the reserved keys (`authToken`, `userEmail`, `theme`, the local block
log, `cacheVersion`, `blockingPaused`) unchanged in the store, removes
every other stored key, and resets the in-memory per-tab dedup state and
the cooldown map, so a subsequently reloaded page is re-checked. -/
theorem c10_clear_cache_frame_effect (s : BgState) (k : String) :
    Store.get (handleClearLocalCache s).store k =
      (if RESERVED_KEYS.contains k then Store.get s.store k else none) ∧
    (handleClearLocalCache s).tabState = s.tabState.map (fun p => (p.1, TabSt.fresh)) ∧
    (handleClearLocalCache s).recentlyProcessed = [] := by
  refine ⟨clearCache_store_get s k, rfl, rfl⟩

/-! ### Claim C1 -/

/-- C1: two page observations for the same normalized key, the second
issued while the first one's remote classification is still pending,
start the classifier factory exactly once; the second caller awaits the
registered promise and, when it resolves, receives the same decision and
the same block outcome as the initiator; and the registration is removed
once that promise settles, whether it resolves or rejects, in either
continuation order. -/
theorem c1_inflight_coalescing (c1First : Bool) (d : Decision) :
    ((coalesceTrace c1First (.resolved d)).guard2 = .awaitExisting 0 ∧
     (coalesceTrace c1First (.resolved d)).startedWhileInFlight = 1 ∧
     (coalesceTrace c1First (.resolved d)).pendingWhileInFlight = some 0 ∧
     (coalesceTrace c1First (.resolved d)).world.started = 1 ∧
     (coalesceTrace c1First (.resolved d)).r1.decision = some d ∧
     (coalesceTrace c1First (.resolved d)).r2.decision = some d ∧
     (coalesceTrace c1First (.resolved d)).r1.blocked = (d == .BLOCK) ∧
     (coalesceTrace c1First (.resolved d)).r2.blocked = (d == .BLOCK) ∧
     (coalesceTrace c1First (.resolved d)).world.pending = none) ∧
    ¬ (coalesceTrace c1First .rejected).world.pending = some 0 := by
  cases c1First <;> cases d <;> decide

/-! ### Claim C5 -/

theorem cleanup_noop_of_no_http (st : Store)
    (h : ∀ p ∈ st, strStartsWith p.1 "http" = false) :
    cleanupCache st = st := by
  unfold cleanupCache
  have hf : List.filter (fun (p : String × Val) =>
      strStartsWith p.1 "http" && !(CLEANUP_RESERVED.contains p.1)) st = [] := by
    rw [List.filter_eq_nil_iff]
    intro p hp
    rw [h p hp]
    simp
  rw [hf]
  simp [MAX_CACHE_SIZE]

/-- A typical populated cache: `n` entries under scheme-less normalized
keys `siteI.example/p`, timestamped by their index. -/
def mkKey (i : Nat) : String :=
  String.mk ('s' :: 'i' :: 't' :: 'e' :: (Nat.toDigits 10 i ++ ".example/p".data))

def mkCacheStore : Nat → Store
  | 0 => []
  | n + 1 => (mkKey n, .entry ⟨"BLOCK", some "distracting", none, none, n, some 1⟩) ::
      mkCacheStore n

theorem mkKey_not_http (i : Nat) : strStartsWith (mkKey i) "http" = false := rfl

theorem mkCacheStore_no_http (n : Nat) :
    ∀ p ∈ mkCacheStore n, strStartsWith p.1 "http" = false := by
  induction n with
  | zero => intro p hp; cases hp
  | succ m ih =>
    intro p hp
    cases List.mem_cons.mp hp with
    | inl e => rw [e]; exact mkKey_not_http m
    | inr hm => exact ih p hm

theorem mkCacheStore_length (n : Nat) : (mkCacheStore n).length = n := by
  induction n with
  | zero => rfl
  | succ m ih => simpa [mkCacheStore] using ih

/-- C5 (code bug): with 201 cache entries in the store — one above
`MAX_CACHE_SIZE = 200`, under normalized keys exactly as `normalizeUrl`
produces them — `cleanupCache` evicts nothing at all, because its
candidate filter keeps only keys starting with `'http'` while
`normalizeUrl` strips the scheme from every key.  The claimed behaviour
(sort by timestamp, evict the oldest excess, leaving at most the
capacity) does not occur. -/
theorem c5_cleanup_never_evicts :
    cleanupCache (mkCacheStore 201) = mkCacheStore 201 ∧
    (mkCacheStore 201).length = 201 ∧
    MAX_CACHE_SIZE = 200 ∧
    normalizeUrl "https://site0.example/p" = mkKey 0 ∧
    getCache "https://site0.example/p" (mkCacheStore 201) =
      some ⟨"BLOCK", some "distracting", none, none, 0, some 1⟩ := by
  refine ⟨cleanup_noop_of_no_http _ (mkCacheStore_no_http 201),
    mkCacheStore_length 201, rfl, by decide, ?_⟩
  decide

/-! ### Claim C2 -/

theorem getVersion_set_num (st : Store) (v : Nat) :
    getVersion (Store.set st "cacheVersion" (.num v)) = some v := by
  simp [getVersion, store_get_set_self]

/-- C2: a successful classifier response whose `cacheVersion` is truthy
and newer than the local one (or with no truthy local version at all)
clears the whole local decision cache and updates the local version
before the new decision is written, so the new entry is stamped with the
new version; every previously stored non-reserved key is gone. -/
theorem c2_version_bump_invalidates_before_write
    (data : RespData) (url pageTitle : String) (now : Nat) (s : BgState) (v : Nat)
    (hv : data.cacheVersion = some v) (hv0 : ¬ v = 0)
    (hnewer : ∀ lv, getVersion s.store = some lv → lv = 0 ∨ v > lv)
    (hts : isTimeSensitive data.reason = false)
    (hkey : RESERVED_KEYS.contains (normalizeUrl url) = false) :
    getVersion (processSuccess data url pageTitle now s).store = some v ∧
    getCache url (processSuccess data url pageTitle now s).store =
      some ⟨data.decision, data.reason, some pageTitle,
            jsOrNull data.activePrompt, now, some v⟩ ∧
    (∀ k, RESERVED_KEYS.contains k = false → ¬ k = normalizeUrl url →
      Store.get (processSuccess data url pageTitle now s).store k = none) := by
  have hkv : ¬ normalizeUrl url = "cacheVersion" := by
    intro e
    rw [e] at hkey
    exact absurd hkey (by decide)
  have hbranch :
      (!jsTruthyOptNat (getVersion s.store) ||
        (match getVersion s.store with
         | some lv => decide (v > lv)
         | none => false)) = true := by
    cases hlv : getVersion s.store with
    | none => simp [jsTruthyOptNat]
    | some lv =>
      cases hnewer lv hlv with
      | inl h0 => simp [jsTruthyOptNat, h0]
      | inr hgt => simp [jsTruthyOptNat, hgt]
  have hstep : processSuccess data url pageTitle now s =
      { handleClearLocalCache s with
        store := cacheWriteStep data url pageTitle now
          (Store.set (handleClearLocalCache s).store "cacheVersion" (.num v)) } := by
    unfold processSuccess applyVersionCheck
    rw [hv]
    have hv0' : (v == 0) = false := by simpa using hv0
    simp only [hv0', hbranch]
    rfl
  rw [hstep]
  have hwrite : cacheWriteStep data url pageTitle now
      (Store.set (handleClearLocalCache s).store "cacheVersion" (.num v)) =
      Store.set (Store.set (handleClearLocalCache s).store "cacheVersion" (.num v))
        (normalizeUrl url)
        (.entry ⟨data.decision, data.reason, some pageTitle,
                 jsOrNull data.activePrompt, now, some v⟩) := by
    unfold cacheWriteStep
    rw [hts]
    unfold setCache
    rw [getVersion_set_num]
    simp [hv0]
  rw [hwrite]
  refine ⟨?_, ?_, ?_⟩
  · show getVersion _ = some v
    unfold getVersion
    rw [store_get_set_ne _ _ _ _ hkv, store_get_set_self]
  · show getCache _ _ = _
    unfold getCache
    rw [store_get_set_self]
  · intro k hkres hkne
    rw [store_get_set_ne _ _ _ _ (fun e => hkne e.symm)]
    by_cases hc : k = "cacheVersion"
    · rw [hc] at hkres
      exact absurd hkres (by decide)
    · rw [store_get_set_ne _ _ _ _ (fun e => hc e.symm), clearCache_store_get, hkres]
      simp

def c2WitState : BgState :=
  ⟨[("cacheVersion", .num 1),
    ("old.example/x", .entry ⟨"ALLOW", none, none, none, 5, some 1⟩),
    ("authToken", .str "tok")], [], []⟩

def c2WitData : RespData := ⟨"BLOCK", some "distracting content", none, some 2⟩

/-- Witness for C2 at a concrete store holding a stale version-1 entry. -/
theorem c2_version_bump_witness :
    getVersion (processSuccess c2WitData "https://site0.example/p" "Site" 99 c2WitState).store =
      some 2 ∧
    getCache "https://site0.example/p"
        (processSuccess c2WitData "https://site0.example/p" "Site" 99 c2WitState).store =
      some ⟨"BLOCK", some "distracting content", some "Site", none, 99, some 2⟩ ∧
    Store.get (processSuccess c2WitData "https://site0.example/p" "Site" 99 c2WitState).store
        "old.example/x" = none := by
  have h := c2_version_bump_invalidates_before_write c2WitData "https://site0.example/p"
    "Site" 99 c2WitState 2 rfl (by decide)
    (by
      intro lv hlv
      rw [show getVersion c2WitState.store = some 1 from rfl] at hlv
      injection hlv with hlv'
      right
      omega)
    (by decide) (by decide)
  exact ⟨h.1, h.2.1, h.2.2 "old.example/x" (by decide) (by decide)⟩

/-! ### Claim C4 -/

theorem cacheStage_not_remote (url : String) (t : TabSt) (c : Option CacheEntry)
    (v : Option Nat) (hval : cacheValid c v = true) :
    ¬ (cacheStage url t c v).1 = .remote := by
  unfold cacheStage
  rw [hval]
  cases c with
  | none => simp
  | some e =>
    simp only [if_true]
    by_cases hb : (e.decision == "BLOCK") = true
    · rw [hb]
      by_cases hs : (t.blockedUrl == some url) = true
      · simp [hs]
      · simp only [Bool.not_eq_true] at hs
        simp [hs]
    · simp only [Bool.not_eq_true] at hb
      simp [hb]

theorem cacheStage_block_acts (url : String) (t : TabSt) (c : Option CacheEntry)
    (v : Option Nat) (e : CacheEntry) (hval : cacheValid c v = true)
    (hc : c = some e) (hdec : e.decision = "BLOCK") :
    (cacheStage url t c v).1 = .cacheBlock ∨
      (cacheStage url t c v).1 = .cacheBlockSuppressed := by
  subst hc
  unfold cacheStage
  rw [hval]
  simp only [if_true]
  rw [show (e.decision == "BLOCK") = true from by simp [hdec]]
  by_cases hs : (t.blockedUrl == some url) = true
  · rw [hs]
    right
    rfl
  · simp only [Bool.not_eq_true] at hs
    rw [hs]
    left
    rfl

/-- C4: a cache entry is treated as valid iff it exists and either no
global `cacheVersion` is (truthily) set or the entry's version equals the
current one; and on a valid cached BLOCK entry the pipeline acts on the
cached decision — it blocks (or suppresses an already-blocked tab) and
never reaches the remote classifier. -/
theorem c4_cache_validity_no_remote :
    (∀ (c : Option CacheEntry) (v : Option Nat),
      cacheValid c v = true ↔
        ∃ e, c = some e ∧ (jsTruthyOptNat v = false ∨ e.cacheVersion = v)) ∧
    (∀ (url : String) (t : TabSt) (c : Option CacheEntry) (v : Option Nat) (e : CacheEntry),
      cacheValid c v = true → c = some e → e.decision = "BLOCK" →
        ((cacheStage url t c v).1 = .cacheBlock ∨
         (cacheStage url t c v).1 = .cacheBlockSuppressed)) ∧
    (∀ (i : PsuIn) (e : CacheEntry),
      cacheValid i.cached i.currentVersion = true → i.cached = some e →
        e.decision = "BLOCK" → ¬ (psuProcess i).result = .remote) := by
  refine ⟨?_, ?_, ?_⟩
  · intro c v
    cases c with
    | none => simp [cacheValid]
    | some e =>
      constructor
      · intro h
        have h2 : jsTruthyOptNat v = false ∨ e.cacheVersion = v := by
          simpa [cacheValid] using h
        exact ⟨e, rfl, h2⟩
      · rintro ⟨e2, he, hor⟩
        injection he with he2
        subst he2
        cases hor with
        | inl h1 => simp [cacheValid, h1]
        | inr h2 => simp [cacheValid, h2]
  · intro url t c v e hval hc hdec
    exact cacheStage_block_acts url t c v e hval hc hdec
  · intro i e hval hc hdec
    have hstage : ∀ t2, ¬ (cacheStage i.url t2 i.cached i.currentVersion).1 = .remote :=
      fun t2 => cacheStage_not_remote i.url t2 i.cached i.currentVersion hval
    unfold psuProcess
    dsimp only
    split
    · simp
    · split
      · simp
      · split
        · simp
        · split
          · simp
          · split
            · simp
            · split
              · simp
              · split
                · simp
                · split
                  · simp
                  · split
                    · simp
                    · intro hres
                      exact hstage _ hres

def c4WitEntry : CacheEntry := ⟨"BLOCK", some "games", none, none, 10, some 3⟩

def c4WitIn : PsuIn :=
  { paused := false, url := "https://fun.example/game", title := "Game",
    tabSt := some ⟨some "https://fun.example/other", some "Other", none, false⟩,
    cooldownMap := [], now := 50000,
    cached := some c4WitEntry, currentVersion := some 3 }

/-- Witness for C4: a concrete valid cached BLOCK never goes remote. -/
theorem c4_cache_validity_witness :
    cacheValid c4WitIn.cached c4WitIn.currentVersion = true ∧
    ¬ (psuProcess c4WitIn).result = PsuResult.remote := by
  refine ⟨by decide, ?_⟩
  exact c4_cache_validity_no_remote.2.2 c4WitIn c4WitEntry (by decide) rfl rfl

/-! ### Claim C6 -/

theorem cacheStage_keeps_lastProcessed (url : String) (t : TabSt)
    (c : Option CacheEntry) (v : Option Nat) :
    (cacheStage url t c v).2.lastProcessedUrl = t.lastProcessedUrl ∧
    (cacheStage url t c v).2.lastProcessedTitle = t.lastProcessedTitle := by
  unfold cacheStage
  split
  · split
    · split
      · split
        · exact ⟨rfl, rfl⟩
        · exact ⟨rfl, rfl⟩
      · exact ⟨rfl, rfl⟩
    · exact ⟨rfl, rfl⟩
  · exact ⟨rfl, rfl⟩

theorem cacheStage_not_skipDedup (url : String) (t : TabSt)
    (c : Option CacheEntry) (v : Option Nat) :
    ¬ (cacheStage url t c v).1 = .skipDedup := by
  unfold cacheStage
  split
  · split
    · split
      · split
        · simp
        · simp
      · simp
    · simp
  · simp

theorem psu_past_dedup (i : PsuIn) (u : UrlParts)
    (hp : i.paused = false)
    (hu : parseUrl i.url.data = some u)
    (hsafe : hostIsSafe u.hostname = false)
    (hbr : strStartsWith i.url "chrome://" = false)
    (hbr2 : strStartsWith i.url "about:" = false)
    (hbr3 : strStartsWith i.url "edge://" = false)
    (hyt : (containsList "youtube.com".data u.hostname &&
        !(u.pathname == "/watch".data || "/shorts/".data.isPrefixOf u.pathname)) = false)
    (ht1 : ¬ i.title = "") (ht2 : ¬ i.title = "YouTube")
    (hne : ¬ (i.tabSt.getD TabSt.fresh).lastProcessedTitle = some i.title) :
    ¬ (psuProcess i).result = .skipDedup ∧
    ∃ t, (psuProcess i).tabSt = some t ∧ t.lastProcessedUrl = some i.url ∧
      t.lastProcessedTitle = some i.title := by
  unfold psuProcess
  simp only [hp, hu, hsafe, hbr, hbr2, hbr3, hyt, Bool.or_self, Bool.or_false,
    Bool.false_eq_true, if_false, Bool.false_and]
  have ht : (i.title == "" || i.title == "YouTube") = false := by
    simp [ht1, ht2]
  have hne' : ((i.tabSt.getD TabSt.fresh).lastProcessedTitle == some i.title) = false := by
    simpa using hne
  simp only [ht, hne', Bool.and_false, Bool.false_eq_true, if_false]
  split
  · exact ⟨by simp, _, rfl, rfl, rfl⟩
  · refine ⟨?_, ?_⟩
    · have hcs := cacheStage_not_skipDedup i.url
        ⟨some i.url, some i.title, (i.tabSt.getD TabSt.fresh).blockedUrl,
         (i.tabSt.getD TabSt.fresh).hasBeenChecked⟩ i.cached i.currentVersion
      simpa using hcs
    · have hcs := cacheStage_keeps_lastProcessed i.url
        ⟨some i.url, some i.title, (i.tabSt.getD TabSt.fresh).blockedUrl,
         (i.tabSt.getD TabSt.fresh).hasBeenChecked⟩ i.cached i.currentVersion
      exact ⟨_, rfl, by simpa using hcs.1, by simpa using hcs.2⟩

/-- C6 (amended): once the pause, safe-list, browser-URL, YouTube
navigation and empty-title filters pass, the pipeline rejects an
observation as a no-op exactly when its title equals the tab's last
processed title — that covers the unchanged (url, title) pair and a
changed URL with an unchanged title; an observation whose title changed
while the URL did not is processed (tab state updated, checking
continues), and the very first observation for a tab is never rejected
this way. -/
theorem c6_dedup_rejection_amended (i : PsuIn) (u : UrlParts)
    (hp : i.paused = false)
    (hu : parseUrl i.url.data = some u)
    (hsafe : hostIsSafe u.hostname = false)
    (hbr : strStartsWith i.url "chrome://" = false)
    (hbr2 : strStartsWith i.url "about:" = false)
    (hbr3 : strStartsWith i.url "edge://" = false)
    (hyt : (containsList "youtube.com".data u.hostname &&
        !(u.pathname == "/watch".data || "/shorts/".data.isPrefixOf u.pathname)) = false)
    (ht1 : ¬ i.title = "") (ht2 : ¬ i.title = "YouTube") :
    (∀ s, i.tabSt = some s → s.lastProcessedTitle = some i.title →
      psuProcess i = ⟨.skipDedup, some s, i.cooldownMap⟩) ∧
    (∀ s, i.tabSt = some s → ¬ s.lastProcessedTitle = some i.title →
      ¬ (psuProcess i).result = .skipDedup ∧
      ∃ t, (psuProcess i).tabSt = some t ∧ t.lastProcessedUrl = some i.url ∧
        t.lastProcessedTitle = some i.title) ∧
    (i.tabSt = none →
      ¬ (psuProcess i).result = .skipDedup ∧
      ∃ t, (psuProcess i).tabSt = some t ∧ t.lastProcessedUrl = some i.url ∧
        t.lastProcessedTitle = some i.title) := by
  refine ⟨?_, ?_, ?_⟩
  · intro s hst heq
    unfold psuProcess
    simp only [hp, hu, hsafe, hbr, hbr2, hbr3, hyt, Bool.or_self, Bool.or_false,
      Bool.false_eq_true, if_false, Bool.false_and]
    have ht : (i.title == "" || i.title == "YouTube") = false := by
      simp [ht1, ht2]
    simp only [ht, Bool.false_eq_true, if_false]
    rw [hst]
    simp only [Option.getD_some]
    have heq' : (s.lastProcessedTitle == some i.title) = true := by simpa using heq
    by_cases hurl : (s.lastProcessedUrl == some i.url) = true
    · simp [hurl, heq']
    · have hurl' : (s.lastProcessedUrl == some i.url) = false := by simpa using hurl
      simp [hurl', heq']
  · intro s hst hne
    exact psu_past_dedup i u hp hu hsafe hbr hbr2 hbr3 hyt ht1 ht2
      (by rw [hst]; simpa using hne)
  · intro hst
    exact psu_past_dedup i u hp hu hsafe hbr hbr2 hbr3 hyt ht1 ht2
      (by rw [hst]; simp [TabSt.fresh])

def c6CexIn : PsuIn :=
  { paused := false, url := "https://example.com/a", title := "New Title",
    tabSt := some ⟨some "https://example.com/a", some "Old Title", none, false⟩,
    cooldownMap := [], now := 7000, cached := none, currentVersion := none }

/-- Counterexample to C6 as stated: an observation whose title changed
while the URL did not is NOT rejected as a no-op — the tab state is
updated, the cooldown map is written, and the pipeline proceeds all the
way to the remote check. -/
theorem c6_title_change_not_rejected :
    ¬ (psuProcess c6CexIn).result = PsuResult.skipDedup ∧
    ¬ (psuProcess c6CexIn).tabSt = c6CexIn.tabSt ∧
    ¬ (psuProcess c6CexIn).cooldownMap = c6CexIn.cooldownMap ∧
    (psuProcess c6CexIn).result = PsuResult.remote := by decide

def c6WitIn : PsuIn :=
  { paused := false, url := "https://example.com/b", title := "T",
    tabSt := some ⟨some "https://example.com/a", some "T", none, false⟩,
    cooldownMap := [], now := 7000, cached := none, currentVersion := none }

/-- Witness for the amended C6: URL changed, title unchanged — rejected
with no state change. -/
theorem c6_dedup_rejection_witness :
    psuProcess c6WitIn =
      ⟨.skipDedup, some ⟨some "https://example.com/a", some "T", none, false⟩, []⟩ := by
  exact (c6_dedup_rejection_amended c6WitIn
      ⟨"https".data, "example.com".data, "/b".data, []⟩
      rfl (by decide) (by decide) (by decide) (by decide) (by decide) (by decide)
      (by decide) (by decide)).1
    ⟨some "https://example.com/a", some "T", none, false⟩ rfl rfl

/-! ### Claim C3 -/

theorem cacheStage_remote_of_invalid (url : String) (t : TabSt)
    (c : Option CacheEntry) (v : Option Nat) (h : cacheValid c v = false) :
    (cacheStage url t c v).1 = .remote := by
  unfold cacheStage
  rw [h]
  simp

/-- C3: a classifier decision whose reason the code's time-sensitivity
test flags (relative amounts like "45 minutes left", clock times,
until/before/after phrases, …) is never written to the decision cache:
after the response is processed the entry under the observation's key is
still not valid, so the cache-consultation stage of an immediately
repeated observation of the same key goes to the remote classifier
instead of a cache hit. -/
theorem c3_time_sensitive_never_cached
    (data : RespData) (url pageTitle : String) (now : Nat) (s : BgState)
    (hts : isTimeSensitive data.reason = true)
    (hkey : RESERVED_KEYS.contains (normalizeUrl url) = false)
    (hinvalid : cacheValid (getCache url s.store) (getVersion s.store) = false) :
    cacheValid (getCache url (processSuccess data url pageTitle now s).store)
        (getVersion (processSuccess data url pageTitle now s).store) = false ∧
    ∀ t : TabSt,
      (cacheStage url t (getCache url (processSuccess data url pageTitle now s).store)
        (getVersion (processSuccess data url pageTitle now s).store)).1 = .remote := by
  have hkv : ¬ normalizeUrl url = "cacheVersion" := by
    intro e
    rw [e] at hkey
    exact absurd hkey (by decide)
  have hwrite : processSuccess data url pageTitle now s =
      applyVersionCheck data.cacheVersion s := by
    unfold processSuccess cacheWriteStep
    rw [hts]
    rfl
  have hmain : cacheValid (getCache url (applyVersionCheck data.cacheVersion s).store)
      (getVersion (applyVersionCheck data.cacheVersion s).store) = false := by
    cases hv : data.cacheVersion with
    | none => exact hinvalid
    | some v =>
      simp only [applyVersionCheck]
      by_cases hv0 : (v == 0) = true
      · rw [if_pos hv0]
        exact hinvalid
      · rw [if_neg hv0]
        by_cases hcond : (!jsTruthyOptNat (getVersion s.store) ||
            (match getVersion s.store with
             | some lv => decide (v > lv)
             | none => false)) = true
        · rw [if_pos hcond]
          dsimp only
          have hget : getCache url
              (Store.set (handleClearLocalCache s).store "cacheVersion" (.num v)) = none := by
            unfold getCache
            rw [store_get_set_ne _ _ _ _ (fun e => hkv e.symm), clearCache_store_get, hkey]
            simp
          rw [hget]
          rfl
        · rw [if_neg hcond]
          exact hinvalid
  rw [hwrite]
  exact ⟨hmain, fun t => cacheStage_remote_of_invalid url t _ _ hmain⟩

def c3WitState : BgState := ⟨[("cacheVersion", .num 1)], [], []⟩

def c3WitData : RespData :=
  ⟨"BLOCK", some "45 minutes left in study session", none, some 1⟩

/-- Witness for C3: the "45 minutes left in study session" BLOCK decision
is flagged time-sensitive, stays uncached, and a repeat of the same key
dispatches to the remote classifier. -/
theorem c3_time_sensitive_witness :
    isTimeSensitive c3WitData.reason = true ∧
    getCache "https://fun.example/game"
      (processSuccess c3WitData "https://fun.example/game" "Game" 42 c3WitState).store = none ∧
    (cacheStage "https://fun.example/game" TabSt.fresh
      (getCache "https://fun.example/game"
        (processSuccess c3WitData "https://fun.example/game" "Game" 42 c3WitState).store)
      (getVersion
        (processSuccess c3WitData "https://fun.example/game" "Game" 42 c3WitState).store)).1 =
      PsuResult.remote := by
  have h := c3_time_sensitive_never_cached c3WitData "https://fun.example/game" "Game" 42
    c3WitState (by decide) (by decide) (by decide)
  exact ⟨by decide, by decide, h.2 TabSt.fresh⟩

/-! ### Claim C7 -/

/-- C7: when the classifier endpoint answers 401 or 403, the request is
not retried (exactly one HTTP attempt), the stored credential is cleared,
and the check ends silently: no block, no activity-log write, no
dashboard tab and no login UI. -/
theorem c7_auth_failure_clears_token_no_retry
    (attempts : Nat → AttemptResult) (r : HttpResponse) (targetUrl pageTitle : String)
    (now : Nat) (s : ApiState)
    (hfirst : attempts 0 = .resp r)
    (hauth : r.status = 401 ∨ r.status = 403) :
    (runPageCheckOnce attempts targetUrl pageTitle now s).2 = 1 ∧
    (runPageCheckOnce attempts targetUrl pageTitle now s).1.authToken = none ∧
    Store.get (runPageCheckOnce attempts targetUrl pageTitle now s).1.bg.store
      "authToken" = none ∧
    (runPageCheckOnce attempts targetUrl pageTitle now s).1.blockedTab = s.blockedTab ∧
    getLogList (runPageCheckOnce attempts targetUrl pageTitle now s).1.bg.store =
      getLogList s.bg.store ∧
    (runPageCheckOnce attempts targetUrl pageTitle now s).1.openedDashboard =
      s.openedDashboard ∧
    (runPageCheckOnce attempts targetUrl pageTitle now s).1.openedLogin = s.openedLogin := by
  have hcond : (r.status == 401 || r.status == 403) = true := by
    cases hauth with
    | inl h => simp [h]
    | inr h => simp [h]
  have hrun : runPageCheckOnce attempts targetUrl pageTitle now s =
      ({ s with authToken := none,
                bg := { s.bg with store := Store.removeKeys s.bg.store ["authToken"] } }, 1) := by
    unfold runPageCheckOnce
    have hfetch : fetchWithRetry attempts API_MAX_RETRIES = (.ok r, 1) := by
      show fetchRetryAux attempts 0 3 = (.ok r, 1)
      simp [fetchRetryAux, hfirst]
    rw [hfetch]
    unfold dispatchResponse
    dsimp only
    rw [if_pos hcond]
    rfl
  rw [hrun]
  refine ⟨rfl, rfl, ?_, rfl, ?_, rfl, rfl⟩
  · show Store.get (Store.removeKeys s.bg.store ["authToken"]) "authToken" = none
    rw [store_get_removeKeys]
    simp
  · show getLogList (Store.removeKeys s.bg.store ["authToken"]) = getLogList s.bg.store
    unfold getLogList
    rw [store_get_removeKeys]
    simp [BLOCK_LOG_KEY]

def c7WitApiState : ApiState :=
  ⟨⟨[("authToken", .str "tok"),
     (BLOCK_LOG_KEY, .logV [⟨"u", "d", "r", "BLOCK", "t", none, 1⟩])], [], []⟩,
   some "tok", false, false, false, false⟩

/-- Witness for C7 at a concrete 401 response. -/
theorem c7_auth_failure_witness :
    (runPageCheckOnce (fun _ => .resp ⟨401, none⟩) "https://fun.example/game" "Game" 5
      c7WitApiState).2 = 1 ∧
    (runPageCheckOnce (fun _ => .resp ⟨401, none⟩) "https://fun.example/game" "Game" 5
      c7WitApiState).1.authToken = none ∧
    Store.get (runPageCheckOnce (fun _ => .resp ⟨401, none⟩) "https://fun.example/game"
      "Game" 5 c7WitApiState).1.bg.store "authToken" = none ∧
    (runPageCheckOnce (fun _ => .resp ⟨401, none⟩) "https://fun.example/game" "Game" 5
      c7WitApiState).1.blockedTab = false ∧
    getLogList (runPageCheckOnce (fun _ => .resp ⟨401, none⟩) "https://fun.example/game"
      "Game" 5 c7WitApiState).1.bg.store = [⟨"u", "d", "r", "BLOCK", "t", none, 1⟩] ∧
    (runPageCheckOnce (fun _ => .resp ⟨401, none⟩) "https://fun.example/game" "Game" 5
      c7WitApiState).1.openedLogin = false := by
  have h := c7_auth_failure_clears_token_no_retry (fun _ => .resp ⟨401, none⟩) ⟨401, none⟩
    "https://fun.example/game" "Game" 5 c7WitApiState rfl (Or.inl rfl)
  refine ⟨h.1, h.2.1, h.2.2.1, h.2.2.2.1, ?_, h.2.2.2.2.2.2⟩
  rw [h.2.2.2.2.1]
  rfl

/-! ### Claim C9 -/

theorem tsBounded_mono (a b : Nat) (h : a ≤ b) (l : List LogEntry)
    (hb : tsBounded a l = true) : tsBounded b l = true := by
  simp only [tsBounded, List.all_eq_true, decide_eq_true_eq] at hb ⊢
  intro e he
  exact le_trans (hb e he) h

theorem tsBounded_subset (b : Nat) (l l2 : List LogEntry) (hsub : l2 ⊆ l)
    (hb : tsBounded b l = true) : tsBounded b l2 = true := by
  simp only [tsBounded, List.all_eq_true, decide_eq_true_eq] at hb ⊢
  intro e he
  exact hb e (hsub he)

theorem sortedDescTs_filter (p : LogEntry → Bool) (l : List LogEntry)
    (h : sortedDescTs l = true) : sortedDescTs (l.filter p) = true := by
  induction l with
  | nil => rfl
  | cons a rest ih =>
    simp only [sortedDescTs, Bool.and_eq_true] at h
    by_cases hp : p a = true
    · rw [List.filter_cons_of_pos hp]
      simp only [sortedDescTs, Bool.and_eq_true]
      exact ⟨tsBounded_subset _ _ _ (List.filter_subset' rest) h.1, ih h.2⟩
    · rw [List.filter_cons_of_neg (by simpa using hp)]
      exact ih h.2

theorem sortedDescTs_take (n : Nat) (l : List LogEntry)
    (h : sortedDescTs l = true) : sortedDescTs (l.take n) = true := by
  induction l generalizing n with
  | nil => simp [sortedDescTs]
  | cons a rest ih =>
    cases n with
    | zero => rfl
    | succ m =>
      simp only [sortedDescTs, Bool.and_eq_true] at h
      simp only [List.take, sortedDescTs, Bool.and_eq_true]
      exact ⟨tsBounded_subset _ _ _ (List.take_subset m rest) h.1, ih m h.2⟩

theorem noAdjDup_take (l : List LogEntry) :
    ∀ n : Nat, noAdjDup l = true → noAdjDup (l.take n) = true := by
  induction l with
  | nil => intro n _; simp [noAdjDup]
  | cons a rest ih =>
    intro n h
    cases n with
    | zero => rfl
    | succ m =>
      cases rest with
      | nil =>
        simp [noAdjDup]
      | cons b rest2 =>
        cases m with
        | zero => rfl
        | succ k =>
          simp only [noAdjDup, Bool.and_eq_true] at h
          have hk := ih (k + 1) h.2
          simp only [List.take] at hk ⊢
          simp only [noAdjDup, Bool.and_eq_true]
          exact ⟨h.1, hk⟩

theorem jsOrStr_ne_empty (x : Option String) : ¬ jsOrStr x "BLOCK" = "" := by
  cases x with
  | none => simp [jsOrStr]
  | some v =>
    simp only [jsOrStr]
    by_cases hv : (v == "") = true
    · rw [if_pos hv]
      simp
    · rw [if_neg hv]
      simpa using hv

theorem jsOrStr_idem (x : Option String) :
    jsOrStr (some (jsOrStr x "BLOCK")) "BLOCK" = jsOrStr x "BLOCK" := by
  have h := jsOrStr_ne_empty x
  generalize hg : jsOrStr x "BLOCK" = r at h ⊢
  simp only [jsOrStr]
  rw [if_neg (by simpa using h)]

theorem dedup_guard (bd : BlockData) (now : Nat) (head : LogEntry)
    (hhit : ((head.url == bd.url) && (head.reason == bd.reason) &&
      (jsOrStr (some head.decision) "BLOCK" == jsOrStr bd.decision "BLOCK") &&
      (now - head.timestamp < 10000)) = false) :
    dedupViolation
      ⟨bd.url, bd.domain, bd.reason, jsOrStr bd.decision "BLOCK",
       jsOrStr bd.pageTitle "", jsOrNull bd.activePrompt, now⟩ head = false := by
  unfold dedupViolation sameTriple
  dsimp only
  rw [Bool.eq_false_iff]
  intro hcontra
  simp only [Bool.and_eq_true, beq_iff_eq, decide_eq_true_eq] at hcontra
  rw [Bool.eq_false_iff] at hhit
  apply hhit
  simp only [Bool.and_eq_true, beq_iff_eq, decide_eq_true_eq]
  obtain ⟨⟨⟨h1, h2⟩, h3⟩, h4⟩ := hcontra
  rw [jsOrStr_idem bd.decision] at h3
  exact ⟨⟨⟨h1.symm, h2.symm⟩, h3.symm⟩, h4⟩

theorem add_inv (la : Bool) (bd : BlockData) (now t0 : Nat) (l : List LogEntry)
    (hb : t0 ≤ now)
    (hsorted : sortedDescTs l = true) (hlen : l.length ≤ 1000)
    (hts : tsBounded t0 l = true) :
    sortedDescTs (addToLocalBlockLog la bd now l) = true ∧
    (addToLocalBlockLog la bd now l).length ≤ 1000 ∧
    tsBounded now (addToLocalBlockLog la bd now l) = true ∧
    (noAdjDup l = true → noAdjDup (addToLocalBlockLog la bd now l) = true) := by
  have htsn : tsBounded now l = true := tsBounded_mono t0 now hb l hts
  unfold addToLocalBlockLog
  dsimp only
  split
  · exact ⟨hsorted, hlen, htsn, fun h => h⟩
  · split
    · exact ⟨hsorted, hlen, htsn, fun h => h⟩
    · rename_i hallow hhit
      have hsorted2 : sortedDescTs
          (⟨bd.url, bd.domain, bd.reason, jsOrStr bd.decision "BLOCK",
            jsOrStr bd.pageTitle "", jsOrNull bd.activePrompt, now⟩ :: l) = true := by
        simp only [sortedDescTs, Bool.and_eq_true]
        exact ⟨htsn, hsorted⟩
      have htsn2 : tsBounded now
          (⟨bd.url, bd.domain, bd.reason, jsOrStr bd.decision "BLOCK",
            jsOrStr bd.pageTitle "", jsOrNull bd.activePrompt, now⟩ :: l) = true := by
        simp only [tsBounded, List.all_cons, Bool.and_eq_true, decide_eq_true_eq]
        constructor
        · exact le_refl now
        · simpa [tsBounded] using htsn
      have hdup2 : noAdjDup l = true → noAdjDup
          (⟨bd.url, bd.domain, bd.reason, jsOrStr bd.decision "BLOCK",
            jsOrStr bd.pageTitle "", jsOrNull bd.activePrompt, now⟩ :: l) = true := by
        intro hnd
        cases l with
        | nil => rfl
        | cons head rest =>
          simp only [noAdjDup, Bool.and_eq_true]
          refine ⟨?_, hnd⟩
          have hguard := dedup_guard bd now head (by simpa using hhit)
          rw [hguard]
          rfl
      split
      · exact ⟨sortedDescTs_take _ _ hsorted2,
          by rw [List.length_take]; unfold MAX_BLOCK_LOG_SIZE; omega,
          tsBounded_subset _ _ _ (List.take_subset _ _) htsn2,
          fun h => noAdjDup_take _ _ (hdup2 h)⟩
      · rename_i hlen2
        refine ⟨hsorted2, ?_, htsn2, hdup2⟩
        simp only [MAX_BLOCK_LOG_SIZE] at hlen2
        omega

theorem del_inv (ts t0 : Nat) (l : List LogEntry)
    (hsorted : sortedDescTs l = true) (hlen : l.length ≤ 1000)
    (hts : tsBounded t0 l = true) :
    sortedDescTs (deleteSingleLog ts l) = true ∧
    (deleteSingleLog ts l).length ≤ 1000 ∧
    tsBounded t0 (deleteSingleLog ts l) = true := by
  refine ⟨sortedDescTs_filter _ _ hsorted, ?_, tsBounded_subset _ _ _ (List.filter_subset' l) hts⟩
  exact le_trans (List.length_filter_le _ l) hlen

theorem applyOps_inv (ops : List LogOp) :
    ∀ (t0 : Nat) (l : List LogEntry),
      opsMonotoneFromB t0 ops = true →
      sortedDescTs l = true → l.length ≤ 1000 → tsBounded t0 l = true →
      ∃ t1, (sortedDescTs (applyLogOps ops l) = true ∧
        (applyLogOps ops l).length ≤ 1000 ∧
        tsBounded t1 (applyLogOps ops l) = true) ∧
      (noDel ops = true → noAdjDup l = true → noAdjDup (applyLogOps ops l) = true) := by
  induction ops with
  | nil =>
    intro t0 l h hs hl ht
    exact ⟨t0, ⟨hs, hl, ht⟩, fun _ hd => hd⟩
  | cons op rest ih =>
    intro t0 l h hs hl ht
    cases op with
    | add la bd now =>
      simp only [opsMonotoneFromB, Bool.and_eq_true, decide_eq_true_eq] at h
      obtain ⟨h1, h2⟩ := h
      have ha := add_inv la bd now t0 l h1 hs hl ht
      obtain ⟨t1, hinv1, hdup1⟩ :=
        ih now (addToLocalBlockLog la bd now l) h2 ha.1 ha.2.1 ha.2.2.1
      exact ⟨t1, hinv1, fun hnd hdl => hdup1 (by simpa [noDel] using hnd) (ha.2.2.2 hdl)⟩
    | del ts =>
      simp only [opsMonotoneFromB] at h
      have hd := del_inv ts t0 l hs hl ht
      obtain ⟨t1, hinv1, _⟩ := ih t0 (deleteSingleLog ts l) h hd.1 hd.2.1 hd.2.2
      exact ⟨t1, hinv1, fun hnd => absurd hnd (by simp [noDel])⟩
    | clear =>
      simp only [opsMonotoneFromB] at h
      obtain ⟨t1, hinv1, hdup1⟩ := ih t0 [] h rfl (by simp) rfl
      exact ⟨t1, hinv1, fun hnd _ => hdup1 (by simpa [noDel] using hnd) rfl⟩

/-- C9 (amended): from an empty log, any sequence of ActivityLog
operations with nondecreasing wall-clock times keeps the stored log
ordered newest-first and within the 1000-entry bound; and as long as the
sequence contains no single-entry deletion, the log never holds two
consecutive entries with identical (url, reason, decision) timestamped
within the 10-second dedup window.  A single-entry deletion can splice
two such identical entries together (see the counterexample). -/
theorem c9_activity_log_invariants_amended (ops : List LogOp) (t0 : Nat)
    (h : opsMonotoneFromB t0 ops = true) :
    sortedDescTs (applyLogOps ops []) = true ∧
    (applyLogOps ops []).length ≤ 1000 ∧
    (noDel ops = true → noAdjDup (applyLogOps ops []) = true) := by
  obtain ⟨t1, hinv, hdup⟩ := applyOps_inv ops t0 [] h rfl (by simp) rfl
  exact ⟨hinv.1, hinv.2.1, fun hnd => hdup hnd rfl⟩

def c9BdA : BlockData :=
  ⟨some "BLOCK", "https://fun.example/game", "fun.example", "games", some "t", none⟩

def c9BdB : BlockData :=
  ⟨some "BLOCK", "https://other.example/x", "other.example", "other", some "t", none⟩

def c9CexOps : List LogOp :=
  [.add true c9BdA 0, .add true c9BdB 1000, .add true c9BdA 2000, .del 1000]

/-- Counterexample to C9 as stated: a monotone sequence of appends
followed by one single-entry deletion leaves two consecutive entries with
identical (url, reason, decision) only 2000 ms apart — well inside the
dedup window — in the stored log. -/
theorem c9_deletion_breaks_dedup :
    opsMonotoneFromB 0 c9CexOps = true ∧
    noAdjDup (applyLogOps c9CexOps []) = false := by decide

def c9WitOps : List LogOp :=
  [.add true c9BdA 0, .add true c9BdA 5000, .clear, .add true c9BdB 6000,
   .add true c9BdA 7000]

/-- Witness for the amended C9 on a concrete deletion-free trace. -/
theorem c9_activity_log_witness :
    sortedDescTs (applyLogOps c9WitOps []) = true ∧
    (applyLogOps c9WitOps []).length ≤ 1000 ∧
    noAdjDup (applyLogOps c9WitOps []) = true := by
  have h := c9_activity_log_invariants_amended c9WitOps 0 (by decide)
  exact ⟨h.1, h.2.1, h.2.2 (by decide)⟩

/-! ### Claim C8 -/

theorem schemeSplit_none_of_no_colon (l : List Char) (h : ¬ ':' ∈ l) :
    schemeSplit l = none := by
  induction l with
  | nil => rfl
  | cons c cs ih =>
    have hc : ¬ c = ':' := fun e => h (by rw [e]; exact List.mem_cons_self _ _)
    have hc' : (c == ':') = false := by simpa using hc
    simp only [schemeSplit, hc']
    rw [ih (fun hm => h (List.mem_cons_of_mem _ hm))]
    rfl

theorem schemeSplit_append_none (xs ys : List Char) (hx : ¬ ':' ∈ xs)
    (hy : schemeSplit ys = none) : schemeSplit (xs ++ ys) = none := by
  induction xs with
  | nil => simpa using hy
  | cons c cs ih =>
    have hc : ¬ c = ':' := fun e => hx (by rw [e]; exact List.mem_cons_self _ _)
    have hc' : (c == ':') = false := by simpa using hc
    simp only [List.cons_append, schemeSplit, hc', List.append_eq]
    rw [ih (fun hm => hx (List.mem_cons_of_mem _ hm))]
    rfl

theorem schemeSplit_append_some (xs ys s r : List Char) (hx : ¬ ':' ∈ xs)
    (hy : schemeSplit ys = some (s, r)) :
    schemeSplit (xs ++ ys) = some (xs ++ s, r) := by
  induction xs with
  | nil => simpa using hy
  | cons c cs ih =>
    have hc : ¬ c = ':' := fun e => hx (by rw [e]; exact List.mem_cons_self _ _)
    have hc' : (c == ':') = false := by simpa using hc
    simp only [List.cons_append, schemeSplit, hc', List.append_eq]
    rw [ih (fun hm => hx (List.mem_cons_of_mem _ hm))]
    rfl

theorem validSchemeChars_false_of_bad (c : Char) (l : List Char)
    (hm : c ∈ l) (hbad : isSchemeChar c = false) : validSchemeChars l = false := by
  cases l with
  | nil => rfl
  | cons a rest =>
    have halpha : ∀ d : Char, d.isAlpha = true → isSchemeChar d = true := by
      intro d hd
      simp [isSchemeChar, hd]
    simp only [validSchemeChars]
    cases List.mem_cons.mp hm with
    | inl he =>
      subst he
      have : c.isAlpha = false := by
        by_cases ha : c.isAlpha = true
        · rw [halpha c ha] at hbad; cases hbad
        · simpa using ha
      rw [this]
      rfl
    | inr hm2 =>
      have : rest.all isSchemeChar = false := by
        by_cases hall : rest.all isSchemeChar = true
        · rw [List.all_eq_true] at hall
          rw [hall c hm2] at hbad
          cases hbad
        · simpa using hall
      rw [this]
      simp

theorem parseUrl_none_of_shape (xs ys : List Char) (hnc : ¬ ':' ∈ xs)
    (hbad : ∃ c ∈ xs, isSchemeChar c = false) : parseUrl (xs ++ ys) = none := by
  cases hy : schemeSplit ys with
  | none =>
    unfold parseUrl
    rw [schemeSplit_append_none xs ys hnc hy]
  | some pr =>
    obtain ⟨s, r⟩ := pr
    unfold parseUrl
    rw [schemeSplit_append_some xs ys s r hnc hy]
    obtain ⟨c, hc, hbadc⟩ := hbad
    have hval : validSchemeChars (xs ++ s) = false :=
      validSchemeChars_false_of_bad c _ (List.mem_append_left _ hc) hbadc
    dsimp only
    rw [hval]
    rfl

theorem hostOf_no_colon (auth : List Char) : ¬ ':' ∈ hostOf auth := by
  unfold hostOf
  intro hmem
  have := List.mem_takeWhile_imp hmem
  simp at this

theorem stripTrailingSlash_append (a b : List Char) (hb : ¬ b = []) :
    stripTrailingSlash (a ++ b) = a ++ stripTrailingSlash b := by
  unfold stripTrailingSlash
  rw [List.reverse_append]
  cases hbr : b.reverse with
  | nil => exact absurd (List.reverse_eq_nil_iff.mp hbr) hb
  | cons c bs =>
    simp only [List.cons_append]
    by_cases hc : (c == '/') = true
    · rw [if_pos hc, if_pos hc, List.reverse_append, List.reverse_reverse]
    · rw [if_neg hc, if_neg hc]

theorem dropWhile_head_false {α : Type} (p : α → Bool) (l : List α) (c : α) (cs : List α)
    (h : l.dropWhile p = c :: cs) : p c = false := by
  induction l with
  | nil => cases h
  | cons a rest ih =>
    by_cases hp : p a = true
    · rw [List.dropWhile_cons_of_pos hp] at h
      exact ih h
    · rw [List.dropWhile_cons_of_neg (by simpa using hp)] at h
      injection h with h1 h2
      subst h1
      simpa using hp

theorem notDelim_false_cases (c : Char) (h : notDelim c = false) :
    c = '/' ∨ c = '?' ∨ c = '#' := by
  by_contra hcon
  push_neg at hcon
  have h1 : (c == '/') = false := by simpa using hcon.1
  have h2 : (c == '?') = false := by simpa using hcon.2.1
  have h3 : (c == '#') = false := by simpa using hcon.2.2
  rw [notDelim, h1, h2, h3] at h
  cases h

theorem pathAndQuery_fst_shape (tail : List Char)
    (htail : ∀ c cs2, tail = c :: cs2 → notDelim c = false) :
    (pathAndQuery tail).1 = [] ∨ ∃ ps, (pathAndQuery tail).1 = '/' :: ps := by
  cases tail with
  | nil => left; rfl
  | cons c cs2 =>
    rcases notDelim_false_cases c (htail c cs2 rfl) with h | h | h
    · subst h
      right
      refine ⟨(cs2.takeWhile (fun x => !(x == '#'))).takeWhile (fun x => !(x == '?')), ?_⟩
      simp [pathAndQuery, List.takeWhile_cons]
    · subst h
      left
      simp [pathAndQuery, List.takeWhile_cons]
    · subst h
      left
      simp [pathAndQuery, List.takeWhile_cons]

theorem parseUrl_special_inv (cs : List Char) (u : UrlParts)
    (hp : parseUrl cs = some u)
    (hs : specialSchemes.contains u.scheme = true) :
    ¬ ':' ∈ u.hostname ∧ (u.pathname = ['/'] ∨ ∃ ps, u.pathname = '/' :: ps) := by
  unfold parseUrl at hp
  cases hsp : schemeSplit cs with
  | none =>
    rw [hsp] at hp
    cases hp
  | some pr =>
    obtain ⟨sch, rest⟩ := pr
    rw [hsp] at hp
    dsimp only at hp
    by_cases hv : validSchemeChars sch = true
    · rw [if_pos hv] at hp
      by_cases hsp2 : specialSchemes.contains (toLowerList sch) = true
      · rw [if_pos hsp2] at hp
        by_cases hhe : (hostOf ((rest.dropWhile (fun c => c == '/')).takeWhile
            notDelim)).isEmpty = true
        · rw [if_pos hhe] at hp
          cases hp
        · rw [if_neg hhe] at hp
          injection hp with hp2
          subst hp2
          refine ⟨hostOf_no_colon _, ?_⟩
          dsimp only
          by_cases hpe : ((pathAndQuery ((rest.dropWhile (fun c => c == '/')).dropWhile
              notDelim)).1).isEmpty = true
          · rw [if_pos hpe]
            left
            rfl
          · rw [if_neg hpe]
            have hshape := pathAndQuery_fst_shape
              ((rest.dropWhile (fun c => c == '/')).dropWhile notDelim)
              (fun c cs2 h => dropWhile_head_false notDelim _ c cs2 h)
            cases hshape with
            | inl h =>
              rw [h] at hpe
              simp at hpe
            | inr h =>
              right
              exact h
      · rw [if_neg hsp2] at hp
        exfalso
        by_cases hab : ['/', '/'].isPrefixOf rest = true
        · rw [if_pos hab] at hp
          injection hp with hp2
          subst hp2
          exact hsp2 (by simpa using hs)
        · rw [if_neg hab] at hp
          injection hp with hp2
          subst hp2
          exact hsp2 (by simpa using hs)
    · rw [if_neg hv] at hp
      cases hp

theorem key_unparseable_strip (host2 path : List Char)
    (hnc : ¬ ':' ∈ host2)
    (hpath : path = ['/'] ∨ ∃ ps, path = '/' :: ps) :
    parseUrl (stripTrailingSlash (host2 ++ path)) = none := by
  have hbare : parseUrl host2 = none := by
    unfold parseUrl
    rw [schemeSplit_none_of_no_colon host2 hnc]
  have hxs : ¬ ':' ∈ host2 ++ ['/'] := by
    intro hm
    cases List.mem_append.mp hm with
    | inl h => exact hnc h
    | inr h => simp at h
  have hxsbad : ∃ c ∈ host2 ++ ['/'], isSchemeChar c = false :=
    ⟨'/', List.mem_append_right _ (by simp), by decide⟩
  cases hpath with
  | inl h =>
    subst h
    rw [stripTrailingSlash_append host2 ['/'] (by simp),
      show stripTrailingSlash ['/'] = [] from rfl, List.append_nil]
    exact hbare
  | inr h =>
    obtain ⟨ps, hps⟩ := h
    subst hps
    cases ps with
    | nil =>
      rw [show host2 ++ ['/'] = host2 ++ ['/'] from rfl,
        stripTrailingSlash_append host2 ['/'] (by simp),
        show stripTrailingSlash ['/'] = [] from rfl, List.append_nil]
      exact hbare
    | cons p0 ps2 =>
      rw [show host2 ++ '/' :: p0 :: ps2 = (host2 ++ ['/']) ++ (p0 :: ps2) from by simp,
        stripTrailingSlash_append (host2 ++ ['/']) (p0 :: ps2) (by simp)]
      exact parseUrl_none_of_shape _ _ hxs hxsbad

theorem key_unparseable_nostrip (host2 rest : List Char)
    (hnc : ¬ ':' ∈ host2) (hrest : ∃ ps, rest = '/' :: ps) :
    parseUrl (host2 ++ rest) = none := by
  obtain ⟨ps, h⟩ := hrest
  subst h
  rw [show host2 ++ '/' :: ps = (host2 ++ ['/']) ++ ps from by simp]
  apply parseUrl_none_of_shape
  · intro hm
    cases List.mem_append.mp hm with
    | inl h2 => exact hnc h2
    | inr h2 => simp at h2
  · exact ⟨'/', List.mem_append_right _ (by simp), by decide⟩

/-- C8 (amended): `normalizeUrl` is a pure total function that returns
its input unchanged whenever the URL fails to parse, and it is idempotent
on every http/https URL (their normalized keys are scheme-less and fall
into the unchanged-fallback branch on re-normalization) as well as,
trivially, on every unparseable string.  It is NOT idempotent on every
string: a non-special-scheme URL whose opaque path itself parses as a URL
re-normalizes differently (see the counterexample). -/
theorem c8_normalize_fallback_and_idem :
    (∀ u : String, parseUrl u.data = none → normalizeUrl u = u) ∧
    (∀ (url : String) (w : UrlParts), parseUrl url.data = some w →
      (w.scheme = "http".data ∨ w.scheme = "https".data) →
      normalizeUrl (normalizeUrl url) = normalizeUrl url) := by
  constructor
  · intro u h
    unfold normalizeUrl
    rw [h]
  · intro url w hp hs
    have hspec : specialSchemes.contains w.scheme = true := by
      cases hs with
      | inl h => rw [h]; decide
      | inr h => rw [h]; decide
    obtain ⟨hnc, hpath⟩ := parseUrl_special_inv url.data w hp hspec
    have hnc' : ¬ ':' ∈ (if ['w', 'w', 'w', '.'].isPrefixOf w.hostname
        then w.hostname.drop 4 else w.hostname) := by
      by_cases hw : ['w', 'w', 'w', '.'].isPrefixOf w.hostname = true
      · rw [if_pos hw]
        intro hm
        exact hnc (List.mem_of_mem_drop hm)
      · rw [if_neg hw]
        exact hnc
    have hkey : ∃ key, normalizeUrl url = String.mk key ∧ parseUrl key = none := by
      unfold normalizeUrl
      rw [hp]
      dsimp only
      by_cases hyt : (((if ['w', 'w', 'w', '.'].isPrefixOf w.hostname
          then w.hostname.drop 4 else w.hostname) == "youtube.com".data) &&
          (w.pathname == "/watch".data)) = true
      · rw [if_pos hyt]
        have hcond := hyt
        simp only [Bool.and_eq_true, beq_iff_eq] at hcond
        cases hg : getParamV w.query with
        | none =>
          refine ⟨_, rfl, ?_⟩
          apply key_unparseable_nostrip _ _ hnc'
          rw [hcond.2]
          exact ⟨"watch".data, rfl⟩
        | some v =>
          dsimp only
          by_cases hve : v.isEmpty = true
          · rw [if_pos hve]
            refine ⟨_, rfl, ?_⟩
            apply key_unparseable_nostrip _ _ hnc'
            rw [hcond.2]
            exact ⟨"watch".data, rfl⟩
          · rw [if_neg hve]
            refine ⟨_, rfl, ?_⟩
            rw [List.append_assoc]
            apply key_unparseable_nostrip _ _ hnc'
            rw [hcond.2]
            exact ⟨"watch".data ++ ('?' :: 'v' :: '=' :: v), rfl⟩
      · rw [if_neg hyt]
        exact ⟨_, rfl, key_unparseable_strip _ _ hnc' hpath⟩
    obtain ⟨key, hk, hpk⟩ := hkey
    rw [hk]
    unfold normalizeUrl
    rw [show parseUrl (String.mk key).data = none from hpk]

/-- Counterexample to C8 as stated: `"x:y:z"` parses (non-special scheme
`x`, opaque path `y:z`), normalizes to `"y:z"` — which itself parses as a
URL with scheme `y` — so the second normalization yields `"z"`:
`normalizeUrl` is not idempotent on every string. -/
theorem c8_not_idempotent_counterexample :
    normalizeUrl "x:y:z" = "y:z" ∧
    ¬ normalizeUrl (normalizeUrl "x:y:z") = normalizeUrl "x:y:z" := by decide

/-- Witness for the amended C8: the fallback branch on an unparseable
string, and idempotence on a concrete https URL. -/
theorem c8_normalize_witness :
    normalizeUrl "not a url" = "not a url" ∧
    normalizeUrl (normalizeUrl "https://www.youtube.com/watch?v=abc&ref=123") =
      normalizeUrl "https://www.youtube.com/watch?v=abc&ref=123" := by
  refine ⟨c8_normalize_fallback_and_idem.1 "not a url" (by decide), ?_⟩
  exact c8_normalize_fallback_and_idem.2 "https://www.youtube.com/watch?v=abc&ref=123"
    ⟨"https".data, "www.youtube.com".data, "/watch".data, "v=abc&ref=123".data⟩
    (by decide) (Or.inr rfl)
